import Mathlib

/-!
Verification of the Sudoku puzzle engine in `streamdoku.py`
(grid construction by band/row/column/digit permutation of a base pattern,
blank carving by difficulty, completion checking, bounded hints).

Grids are Python lists of lists of ints; `0` marks an empty cell.
The outcomes of the library's random primitives (`random.shuffle`,
`random.choice`) are passed in as explicit parameters: a shuffled list is a
parameter constrained to be a permutation of the list the code shuffles, and
`random.choice` over a non-empty list is indexed by an oracle `k : Nat`.
-/

abbrev Grid := List (List Nat)

namespace Streamdoku

/-- Cell read `g[r][c]`; out-of-range reads default to `0` (the source only
reads in range on well-formed 9×9 grids). -/
def cell (g : Grid) (r c : Nat) : Nat := (g.getD r []).getD c 0

/-- Well-formed 9×9 grid: 9 rows of 9 entries. -/
def WF (g : Grid) : Prop := g.length = 9 ∧ ∀ row ∈ g, row.length = 9

/-- `base_solution` (streamdoku.py 7–9):
`[[(i*base + i//base + j) % side + 1 for j in range(side)] for i in range(side)]`
with `side = 9`, `base = 3`. -/
def base_solution : Grid :=
  (List.range 9).map fun i => (List.range 9).map fun j => (i * 3 + i / 3 + j) % 9 + 1

/-- `shuffle_in_groups` (streamdoku.py 16–21), specialized to its only
argument `list(range(9))`: the list is split into the three groups
`[0,1,2], [3,4,5], [6,7,8]`, the order of the groups is shuffled, then each
group is shuffled internally, and the result is flattened.  The outcome of
the two random shuffles is a parameter: `σ b` is the original index of the
group placed at output position `b`, and `τ b k` is the within-group offset
placed at position `k` of output group `b`; entry `3*b + k` of the result is
`3 * σ b + τ b k`. -/
def shuffle_in_groups (σ : Nat → Nat) (τ : Nat → Nat → Nat) : List Nat :=
  (List.range 3).flatMap fun b => (List.range 3).map fun k => 3 * σ b + τ b k

/-- A faithful outcome of `random.shuffle` on a 3-element list: a permutation
of `{0, 1, 2}`. -/
def IsPerm3 (f : Nat → Nat) : Prop :=
  (∀ m, m < 3 → f m < 3) ∧ ∀ m, m < 3 → ∀ n, n < 3 → f m = f n → m = n

/-- `shuffled_solution` (streamdoku.py 11–27): row indices and column indices
are produced by `shuffle_in_groups`, `nums` is the shuffled `list(range(1,10))`,
and the grid is `[[nums[base[r][c]-1] for c in cols] for r in rows]`. -/
def shuffled_solution (σr : Nat → Nat) (τr : Nat → Nat → Nat) (σc : Nat → Nat)
    (τc : Nat → Nat → Nat) (nums : List Nat) : Grid :=
  (shuffle_in_groups σr τr).map fun r =>
    (shuffle_in_groups σc τc).map fun c =>
      nums.getD (cell base_solution r c - 1) 0

/-- Cell write `g[r][c] = v` on a list-of-lists grid. -/
def set_cell (g : Grid) (r c v : Nat) : Grid :=
  g.set r ((g.getD r []).set c v)

/-- The difficulty table `keep_map` (streamdoku.py 30):
`{"쉬움": 45, "중간": 35, "어려움": 28}`. -/
def keep_map : List (String × Nat) := [("쉬움", 45), ("중간", 35), ("어려움", 28)]

/-- `keep_map.get(diff, 35)` (streamdoku.py 31). -/
def lookup_keep (diff : String) : Nat := (keep_map.lookup diff).getD 35

/-- The list `[(r, c) for r in range(9) for c in range(9)]` (streamdoku.py 32). -/
def all_cells : List (Nat × Nat) :=
  (List.range 9).flatMap fun r => (List.range 9).map fun c => (r, c)

/-- Fresh row-by-row copy `[[g[r][c] for c in range(9)] for r in range(9)]`
(streamdoku.py 34, 63, 75, 79). -/
def grid_copy (g : Grid) : Grid :=
  (List.range 9).map fun r => (List.range 9).map fun c => cell g r c

/-- `make_puzzle` (streamdoku.py 29–38).  The parameter `cells` is the outcome
of `random.shuffle` on the list of all 81 coordinates; the first
`blanks = 81 - keep` of them are zeroed in a copy of the solution. -/
def make_puzzle (solution : Grid) (diff : String) (cells : List (Nat × Nat)) : Grid :=
  let keep := lookup_keep diff
  let p := grid_copy solution
  let blanks := 81 - keep
  (cells.take blanks).foldl (fun g rc => set_cell g rc.1 rc.2 0) p

/-- Python `set(range(1, 10))` (streamdoku.py 41). -/
def target : Finset Nat := (List.range' 1 9).toFinset

/-- Column `c` read out as `[grid[r][c] for r in range(9)]` (streamdoku.py 47). -/
def col_list (g : Grid) (c : Nat) : List Nat :=
  (List.range 9).map fun r => cell g r c

/-- Box with top-left corner `(br, bc)` read out as
`[grid[r][c] for r in range(br, br+3) for c in range(bc, bc+3)]`
(streamdoku.py 52). -/
def box_list (g : Grid) (br bc : Nat) : List Nat :=
  (List.range' br 3).flatMap fun r => (List.range' bc 3).map fun c => cell g r c

/-- `check_complete` (streamdoku.py 40–55): every row must avoid `0` and have
value set `{1..9}`, every column and every box must have value set `{1..9}`. -/
def check_complete (grid : Grid) : Bool :=
  ((List.range 9).all fun r =>
    let row := grid.getD r []
    !(decide (0 ∈ row)) && decide (row.toFinset = target)) &&
  ((List.range 9).all fun c => decide ((col_list grid c).toFinset = target)) &&
  ((List.range' 0 3 3).all fun br =>
    (List.range' 0 3 3).all fun bc => decide ((box_list grid br bc).toFinset = target))

/-- The caller-held session state (streamdoku.py 57–67). -/
structure GameState where
  solution : Grid
  puzzle : Grid
  user_grid : Grid
  difficulty : String
  hint_used : Nat
  deriving Repr, DecidableEq

/-- `HINT_LIMIT = 3` (streamdoku.py 69). -/
def HINT_LIMIT : Nat := 3

/-- `new_game` (streamdoku.py 71–76); the random outcomes of solution
shuffling and of blank selection are explicit parameters. -/
def new_game (diff : String) (σr : Nat → Nat) (τr : Nat → Nat → Nat)
    (σc : Nat → Nat) (τc : Nat → Nat → Nat) (nums : List Nat)
    (cells : List (Nat × Nat)) : GameState :=
  let sol := shuffled_solution σr τr σc τc nums
  let puz := make_puzzle sol diff cells
  { solution := sol, puzzle := puz, user_grid := grid_copy puz,
    difficulty := diff, hint_used := 0 }

/-- `reset_board` (streamdoku.py 78–79). -/
def reset_board (st : GameState) : GameState :=
  { st with user_grid := grid_copy st.puzzle }

/-- The list `blanks` of `give_hint` (streamdoku.py 87): cells blank in the
puzzle and still zero in the user grid. -/
def hint_blanks (st : GameState) : List (Nat × Nat) :=
  all_cells.filter fun rc =>
    cell st.puzzle rc.1 rc.2 == 0 && cell st.user_grid rc.1 rc.2 == 0

/-- The list `wrongs` of `give_hint` (streamdoku.py 93–94): editable cells
filled with a non-zero value that differs from the solution. -/
def hint_wrongs (st : GameState) : List (Nat × Nat) :=
  all_cells.filter fun rc =>
    cell st.puzzle rc.1 rc.2 == 0 && cell st.user_grid rc.1 rc.2 != 0 &&
      cell st.user_grid rc.1 rc.2 != cell st.solution rc.1 rc.2

/-- `give_hint` (streamdoku.py 81–98); `k` is the oracle deciding the outcome
of `random.choice` on a non-empty candidate list. -/
def give_hint (st : GameState) (k : Nat) : GameState :=
  if HINT_LIMIT ≤ st.hint_used then st
  else
    let blanks := hint_blanks st
    if blanks = [] then
      let wrongs := hint_wrongs st
      if wrongs = [] then st
      else
        let rc := wrongs.getD (k % wrongs.length) (0, 0)
        { st with
          user_grid := set_cell st.user_grid rc.1 rc.2 (cell st.solution rc.1 rc.2),
          hint_used := st.hint_used + 1 }
    else
      let rc := blanks.getD (k % blanks.length) (0, 0)
      { st with
        user_grid := set_cell st.user_grid rc.1 rc.2 (cell st.solution rc.1 rc.2),
        hint_used := st.hint_used + 1 }

/-- Code points of all characters Python's `str.isspace` (and hence
`str.strip()` with no argument) accepts, exhaustively (CPython 3.11 /
Unicode 14): the ASCII controls `\t \n \x0b \x0c \r`, the separators
`\x1c`–`\x1f`, space, `\x85`, no-break space `\xa0`, Ogham space mark,
the `U+2000`–`U+200A` spaces, line and paragraph separators, narrow
no-break space, medium mathematical space, and ideographic space. -/
def py_space_codes : List Nat :=
  [9, 10, 11, 12, 13, 28, 29, 30, 31, 32, 133, 160, 5760, 8192, 8193, 8194,
   8195, 8196, 8197, 8198, 8199, 8200, 8201, 8202, 8232, 8233, 8239, 8287,
   12288]

/-- Python `str.isspace` on one character. -/
def py_isspace (ch : Char) : Bool := py_space_codes.contains ch.toNat

/-- `txt.strip()` on the character list of the input string. -/
def py_strip (s : List Char) : List Char :=
  ((s.dropWhile py_isspace).reverse.dropWhile py_isspace).reverse

/-- First code points of the 66 runs of ten consecutive decimal-digit
characters (Unicode category `Nd`), exhaustively (CPython 3.11 /
Unicode 14).  A character is a decimal digit iff its code point lies in
`[s, s+9]` for one of these starts `s`, and Python's `int` converts it to
`code - s`. -/
def nd_starts : List Nat :=
  [48, 1632, 1776, 1984, 2406, 2534, 2662, 2790, 2918, 3046, 3174, 3302,
   3430, 3558, 3664, 3792, 3872, 4160, 4240, 6112, 6160, 6470, 6608, 6784,
   6800, 6992, 7088, 7232, 7248, 42528, 43216, 43264, 43472, 43504, 43600,
   44016, 65296, 66720, 68912, 69734, 69872, 69942, 70096, 70384, 70736,
   70864, 71248, 71360, 71472, 71904, 72016, 72784, 73040, 73120, 92768,
   92864, 93008, 120782, 120792, 120802, 120812, 120822, 123200, 123632,
   125264, 130032]

/-- The decimal value Python's `int` gives a character: `some (code - s)`
when the code point lies in the decimal-digit run starting at `s`, `none`
otherwise. -/
def py_decimal_val (ch : Char) : Option Nat :=
  (nd_starts.find? fun s => s ≤ ch.toNat && ch.toNat ≤ s + 9).map fun s =>
    ch.toNat - s

/-- Inclusive code-point ranges of the 128 characters where Python's
`str.isdigit` is true although the character is not a decimal digit
(`Numeric_Type=Digit`: superscripts, subscripts, circled digits, …),
exhaustively (CPython 3.11 / Unicode 14); `int` raises `ValueError` on
every one of them. -/
def digit_only_ranges : List (Nat × Nat) :=
  [(178, 179), (185, 185), (4969, 4977), (6618, 6618), (8304, 8304),
   (8308, 8313), (8320, 8329), (9312, 9320), (9332, 9340), (9352, 9360),
   (9450, 9450), (9461, 9469), (9471, 9471), (10102, 10110), (10112, 10120),
   (10122, 10130), (68160, 68163), (69216, 69224), (69714, 69722),
   (127232, 127242)]

/-- Python `str.isdigit` on one character: a decimal digit, or a digit-type
character without a decimal value. -/
def py_isdigit (ch : Char) : Bool :=
  (py_decimal_val ch).isSome ||
    digit_only_ranges.any fun r => r.1 ≤ ch.toNat && ch.toNat ≤ r.2

/-- `s.isdigit()` for a string given as a character list: non-empty and all
digits. -/
def str_isdigit (s : List Char) : Bool := !s.isEmpty && s.all py_isdigit

/-- `int(s)` on a digit string given as a character list: the base-10 value
when every character is a decimal digit, and `none` — the `ValueError`
raised by `int` — when some digit-type character has no decimal value
(e.g. `int("²")`). -/
def py_int (s : List Char) : Option Nat :=
  if !s.isEmpty && s.all (fun ch => (py_decimal_val ch).isSome) then
    some (s.foldl (fun a ch => a * 10 + (py_decimal_val ch).getD 0) 0)
  else none

/-- Cell input sanitization (streamdoku.py 144–146):
`s = (txt or "").strip(); s = s[:1]; int(s) if s.isdigit() and s != "0" else 0`;
`none` models the `ValueError` that `int` raises when the kept character is
a digit-type character without a decimal value. -/
def sanitize (txt : List Char) : Option Nat :=
  let s := py_strip txt
  let s1 := s.take 1
  if str_isdigit s1 && s1 != ['0'] then py_int s1 else some 0

/-- One editable-cell write of the board loop (streamdoku.py 129–146): a cell
is only written when it is not a given (`puzzle[r][c] == 0`) and when `int`
does not raise; on a `ValueError` the assignment never executes and the
state is unchanged. -/
def user_edit (st : GameState) (r c : Nat) (txt : List Char) : GameState :=
  if cell st.puzzle r c ≠ 0 then st
  else
    match sanitize txt with
    | some v => { st with user_grid := set_cell st.user_grid r c v }
    | none => st

/-- Number of non-zero cells of a 9×9 grid. -/
def nonzero_count (g : Grid) : Nat :=
  ((Finset.range 9 ×ˢ Finset.range 9).filter fun rc => cell g rc.1 rc.2 ≠ 0).card

/-- Number of zero cells of a 9×9 grid. -/
def zero_count (g : Grid) : Nat :=
  ((Finset.range 9 ×ˢ Finset.range 9).filter fun rc => cell g rc.1 rc.2 = 0).card

/-- Editable cells still untouched by the user, as a set. -/
def BlankSet (st : GameState) : Finset (Nat × Nat) :=
  (Finset.range 9 ×ˢ Finset.range 9).filter fun rc =>
    cell st.puzzle rc.1 rc.2 = 0 ∧ cell st.user_grid rc.1 rc.2 = 0

/-- Editable cells holding a non-zero value that differs from the solution,
as a set. -/
def WrongSet (st : GameState) : Finset (Nat × Nat) :=
  (Finset.range 9 ×ˢ Finset.range 9).filter fun rc =>
    cell st.puzzle rc.1 rc.2 = 0 ∧ cell st.user_grid rc.1 rc.2 ≠ 0 ∧
      cell st.user_grid rc.1 rc.2 ≠ cell st.solution rc.1 rc.2

/-- The session-state invariant: non-zero puzzle cells agree with the
solution, and the user grid agrees with the puzzle on those given cells. -/
def Invariant (st : GameState) : Prop :=
  (∀ r, r < 9 → ∀ c, c < 9 → cell st.puzzle r c ≠ 0 →
    cell st.puzzle r c = cell st.solution r c) ∧
  (∀ r, r < 9 → ∀ c, c < 9 → cell st.puzzle r c ≠ 0 →
    cell st.user_grid r c = cell st.puzzle r c)

/-! ### Basic indexing lemmas -/

theorem getD_range_map {α : Type} (f : Nat → α) (n i : Nat) (d : α) (h : i < n) :
    ((List.range n).map f).getD i d = f i := by
  simp [List.getD_eq_getElem?_getD, List.getElem?_eq_getElem, h]

theorem getD_map_of_lt {α β : Type} (f : α → β) (l : List α) (i : Nat) (d : β) (d' : α)
    (h : i < l.length) :
    (l.map f).getD i d = f (l.getD i d') := by
  simp [List.getD_eq_getElem?_getD, List.getElem?_eq_getElem, h]

theorem getD_mem {α : Type} (l : List α) (i : Nat) (d : α) (h : i < l.length) :
    l.getD i d ∈ l := by
  rw [List.getD_eq_getElem?_getD, List.getElem?_eq_getElem h]
  exact List.getElem_mem h

theorem cell_grid_copy (g : Grid) (r c : Nat) (hr : r < 9) (hc : c < 9) :
    cell (grid_copy g) r c = cell g r c := by
  show ((grid_copy g).getD r []).getD c 0 = cell g r c
  unfold grid_copy
  rw [getD_range_map _ _ _ _ hr, getD_range_map _ _ _ _ hc]

theorem WF_grid_copy (g : Grid) : WF (grid_copy g) := by
  constructor
  · simp [grid_copy]
  · intro row hrow
    simp only [grid_copy, List.mem_map] at hrow
    obtain ⟨r, -, rfl⟩ := hrow
    simp

theorem cell_set_cell_ne (g : Grid) (r c v r' c' : Nat) (h : ¬(r' = r ∧ c' = c)) :
    cell (set_cell g r c v) r' c' = cell g r' c' := by
  unfold cell set_cell
  simp only [List.getD_eq_getElem?_getD]
  by_cases hr : r' = r
  · subst hr
    have hc : c' ≠ c := fun hc => h ⟨rfl, hc⟩
    by_cases hlen : r' < g.length
    · simp [List.getElem?_set_self hlen, List.getElem?_set_ne (Ne.symm hc)]
    · rw [List.set_eq_of_length_le (Nat.le_of_not_lt hlen)]
  · rw [List.getElem?_set_ne (Ne.symm hr)]

theorem cell_set_cell_self (g : Grid) (r c v : Nat) (hr : r < g.length)
    (hc : c < (g.getD r []).length) :
    cell (set_cell g r c v) r c = v := by
  unfold cell set_cell
  simp only [List.getD_eq_getElem?_getD]
  simp only [List.getElem?_set_self hr, Option.getD_some]
  have hc' : c < (g[r]?.getD []).length := by rwa [← List.getD_eq_getElem?_getD]
  rw [List.getElem?_set_self hc']
  rfl

theorem cell_set_cell_self_or (g : Grid) (r c v : Nat) :
    cell (set_cell g r c v) r c = v ∨ cell (set_cell g r c v) r c = cell g r c := by
  by_cases hr : r < g.length
  · by_cases hc : c < (g.getD r []).length
    · exact Or.inl (cell_set_cell_self g r c v hr hc)
    · right
      unfold cell set_cell
      rw [List.set_eq_of_length_le (Nat.le_of_not_lt hc)]
      simp only [List.getD_eq_getElem?_getD]
      simp [List.getElem?_set_self hr, List.getElem?_eq_getElem hr]
  · right
    unfold cell set_cell
    rw [List.set_eq_of_length_le (Nat.le_of_not_lt hr)]

theorem WF_set_cell (g : Grid) (r c v : Nat) (h : WF g) : WF (set_cell g r c v) := by
  obtain ⟨hlen, hrows⟩ := h
  by_cases hr : r < g.length
  · constructor
    · simp [set_cell, hlen]
    · intro row hrow
      rcases List.mem_or_eq_of_mem_set hrow with hmem | rfl
      · exact hrows row hmem
      · rw [List.length_set]
        exact hrows _ (getD_mem g r [] hr)
  · unfold set_cell
    rw [List.set_eq_of_length_le (Nat.le_of_not_lt hr)]
    exact ⟨hlen, hrows⟩

theorem WF_cell_len (g : Grid) (hwf : WF g) (r : Nat) (hr : r < 9) :
    (g.getD r []).length = 9 := by
  obtain ⟨hlen, hrows⟩ := hwf
  exact hrows _ (getD_mem g r [] (by omega))

/-! ### `give_hint` case analysis -/

/-- The state update shared by both hint branches: reveal the solution value
at `rc` and count the hint. -/
def hint_fill (st : GameState) (rc : Nat × Nat) : GameState :=
  { st with
    user_grid := set_cell st.user_grid rc.1 rc.2 (cell st.solution rc.1 rc.2),
    hint_used := st.hint_used + 1 }

theorem mem_all_cells (rc : Nat × Nat) : rc ∈ all_cells ↔ rc.1 < 9 ∧ rc.2 < 9 := by
  obtain ⟨r, c⟩ := rc
  simp only [all_cells, List.mem_flatMap, List.mem_map, List.mem_range]
  constructor
  · rintro ⟨a, ha, b, hb, h⟩
    cases h
    exact ⟨ha, hb⟩
  · rintro ⟨hr, hc⟩
    exact ⟨r, hr, c, hc, rfl⟩

theorem getD_mem_of_ne_nil {α : Type} (l : List α) (k : Nat) (d : α) (h : l ≠ []) :
    l.getD (k % l.length) d ∈ l :=
  getD_mem l _ d (Nat.mod_lt _ (List.length_pos.mpr h))

theorem mem_hint_blanks (st : GameState) (rc : Nat × Nat) :
    rc ∈ hint_blanks st ↔
      rc.1 < 9 ∧ rc.2 < 9 ∧ cell st.puzzle rc.1 rc.2 = 0 ∧
        cell st.user_grid rc.1 rc.2 = 0 := by
  simp only [hint_blanks, List.mem_filter, mem_all_cells, Bool.and_eq_true, beq_iff_eq]
  tauto

theorem mem_hint_wrongs (st : GameState) (rc : Nat × Nat) :
    rc ∈ hint_wrongs st ↔
      rc.1 < 9 ∧ rc.2 < 9 ∧ cell st.puzzle rc.1 rc.2 = 0 ∧
        cell st.user_grid rc.1 rc.2 ≠ 0 ∧
        cell st.user_grid rc.1 rc.2 ≠ cell st.solution rc.1 rc.2 := by
  simp only [hint_wrongs, List.mem_filter, mem_all_cells, Bool.and_eq_true, beq_iff_eq,
    bne_iff_ne, ne_eq]
  tauto

theorem mem_BlankSet (st : GameState) (rc : Nat × Nat) :
    rc ∈ BlankSet st ↔ rc ∈ hint_blanks st := by
  rw [mem_hint_blanks]
  simp only [BlankSet, Finset.mem_filter, Finset.mem_product, Finset.mem_range]
  tauto

theorem mem_WrongSet (st : GameState) (rc : Nat × Nat) :
    rc ∈ WrongSet st ↔ rc ∈ hint_wrongs st := by
  rw [mem_hint_wrongs]
  simp only [WrongSet, Finset.mem_filter, Finset.mem_product, Finset.mem_range, ne_eq]
  tauto

theorem BlankSet_empty_iff (st : GameState) : BlankSet st = ∅ ↔ hint_blanks st = [] := by
  rw [Finset.eq_empty_iff_forall_not_mem, List.eq_nil_iff_forall_not_mem]
  exact forall_congr' fun rc => not_congr (mem_BlankSet st rc)

theorem WrongSet_empty_iff (st : GameState) : WrongSet st = ∅ ↔ hint_wrongs st = [] := by
  rw [Finset.eq_empty_iff_forall_not_mem, List.eq_nil_iff_forall_not_mem]
  exact forall_congr' fun rc => not_congr (mem_WrongSet st rc)

/-- Full behavioural case split of `give_hint`. -/
theorem give_hint_cases (st : GameState) (k : Nat) :
    (3 ≤ st.hint_used ∧ give_hint st k = st) ∨
    (st.hint_used < 3 ∧ hint_blanks st ≠ [] ∧
      give_hint st k = hint_fill st ((hint_blanks st).getD (k % (hint_blanks st).length) (0, 0)) ∧
      (hint_blanks st).getD (k % (hint_blanks st).length) (0, 0) ∈ hint_blanks st) ∨
    (st.hint_used < 3 ∧ hint_blanks st = [] ∧ hint_wrongs st ≠ [] ∧
      give_hint st k = hint_fill st ((hint_wrongs st).getD (k % (hint_wrongs st).length) (0, 0)) ∧
      (hint_wrongs st).getD (k % (hint_wrongs st).length) (0, 0) ∈ hint_wrongs st) ∨
    (st.hint_used < 3 ∧ hint_blanks st = [] ∧ hint_wrongs st = [] ∧ give_hint st k = st) := by
  by_cases hlim : 3 ≤ st.hint_used
  · left
    refine ⟨hlim, ?_⟩
    unfold give_hint HINT_LIMIT
    rw [if_pos hlim]
  · have hlim' : st.hint_used < 3 := Nat.lt_of_not_le hlim
    by_cases hb : hint_blanks st = []
    · by_cases hw : hint_wrongs st = []
      · right; right; right
        refine ⟨hlim', hb, hw, ?_⟩
        unfold give_hint HINT_LIMIT
        rw [if_neg hlim, if_pos hb, if_pos hw]
      · right; right; left
        refine ⟨hlim', hb, hw, ?_, getD_mem_of_ne_nil _ k _ hw⟩
        unfold give_hint HINT_LIMIT hint_fill
        rw [if_neg hlim, if_pos hb, if_neg hw]
    · right; left
      refine ⟨hlim', hb, ?_, getD_mem_of_ne_nil _ k _ hb⟩
      unfold give_hint HINT_LIMIT hint_fill
      rw [if_neg hlim, if_neg hb]

/-! ### Frame and monotonicity facts about one hint fill -/

theorem fill_frame (st : GameState) (rc : Nat × Nat) :
    (∀ r c, ¬(r = rc.1 ∧ c = rc.2) →
      cell (hint_fill st rc).user_grid r c = cell st.user_grid r c) ∧
    (∀ r c, cell st.user_grid r c = cell st.solution r c →
      cell (hint_fill st rc).user_grid r c = cell st.user_grid r c) ∧
    (∀ r c, cell (hint_fill st rc).user_grid r c ≠ cell st.user_grid r c →
      cell (hint_fill st rc).user_grid r c = cell st.solution r c) := by
  refine ⟨fun r c h => cell_set_cell_ne _ _ _ _ _ _ h, ?_, ?_⟩
  · intro r c heq
    by_cases hrc : r = rc.1 ∧ c = rc.2
    · obtain ⟨rfl, rfl⟩ := hrc
      rcases cell_set_cell_self_or st.user_grid rc.1 rc.2 (cell st.solution rc.1 rc.2)
        with h1 | h1
      · show cell (set_cell st.user_grid rc.1 rc.2 (cell st.solution rc.1 rc.2)) rc.1 rc.2 = _
        rw [h1, heq]
      · exact h1
    · exact cell_set_cell_ne _ _ _ _ _ _ hrc
  · intro r c hne
    by_cases hrc : r = rc.1 ∧ c = rc.2
    · obtain ⟨rfl, rfl⟩ := hrc
      rcases cell_set_cell_self_or st.user_grid rc.1 rc.2 (cell st.solution rc.1 rc.2)
        with h1 | h1
      · exact h1
      · exact absurd h1 hne
    · exact absurd (cell_set_cell_ne _ _ _ _ _ _ hrc) hne

theorem nonzero_count_le_of_pointwise (g g' : Grid)
    (h : ∀ r c, r < 9 → c < 9 → cell g r c ≠ 0 → cell g' r c ≠ 0) :
    nonzero_count g ≤ nonzero_count g' := by
  apply Finset.card_le_card
  intro rc hrc
  rw [Finset.mem_filter] at hrc ⊢
  refine ⟨hrc.1, ?_⟩
  have hp := hrc.1
  rw [Finset.mem_product, Finset.mem_range, Finset.mem_range] at hp
  exact h rc.1 rc.2 hp.1 hp.2 hrc.2

/-- C10: each `give_hint` call changes at most one cell of the user grid,
never changes a cell that already equals the solution, and any cell it does
change ends up holding the solution's value at that position. -/
theorem give_hint_frame (st : GameState) (k : Nat) :
    (∃ r0 c0, ∀ r c, ¬(r = r0 ∧ c = c0) →
      cell (give_hint st k).user_grid r c = cell st.user_grid r c) ∧
    (∀ r c, cell st.user_grid r c = cell st.solution r c →
      cell (give_hint st k).user_grid r c = cell st.user_grid r c) ∧
    (∀ r c, cell (give_hint st k).user_grid r c ≠ cell st.user_grid r c →
      cell (give_hint st k).user_grid r c = cell st.solution r c) := by
  rcases give_hint_cases st k with ⟨-, h⟩ | ⟨-, -, h, -⟩ | ⟨-, -, -, h, -⟩ | ⟨-, -, -, h⟩
  · rw [h]
    exact ⟨⟨0, 0, fun r c _ => rfl⟩, fun r c _ => rfl, fun r c hne => absurd rfl hne⟩
  · obtain ⟨f1, f2, f3⟩ := fill_frame st ((hint_blanks st).getD (k % (hint_blanks st).length) (0, 0))
    rw [h]
    exact ⟨⟨_, _, f1⟩, f2, f3⟩
  · obtain ⟨f1, f2, f3⟩ := fill_frame st ((hint_wrongs st).getD (k % (hint_wrongs st).length) (0, 0))
    rw [h]
    exact ⟨⟨_, _, f1⟩, f2, f3⟩
  · rw [h]
    exact ⟨⟨0, 0, fun r c _ => rfl⟩, fun r c _ => rfl, fun r c hne => absurd rfl hne⟩

/-- C9: `reset_board` is idempotent, its user grid is a pure function of the
puzzle, and it changes none of solution, puzzle, difficulty or hint count. -/
theorem reset_board_idempotent (st st' : GameState) (hp : st.puzzle = st'.puzzle) :
    reset_board (reset_board st) = reset_board st ∧
    (reset_board st).solution = st.solution ∧
    (reset_board st).puzzle = st.puzzle ∧
    (reset_board st).difficulty = st.difficulty ∧
    (reset_board st).hint_used = st.hint_used ∧
    (reset_board st).user_grid = (reset_board st').user_grid := by
  refine ⟨rfl, rfl, rfl, rfl, rfl, ?_⟩
  simp only [reset_board, hp]

/-- A concrete session state used to instantiate hypotheses: the base
solution, a puzzle blanking its top-left cell, the user grid equal to the
puzzle. -/
def sample_state : GameState :=
  { solution := base_solution, puzzle := set_cell base_solution 0 0 0,
    user_grid := set_cell base_solution 0 0 0, difficulty := "중간", hint_used := 0 }

/-- Witness for C9 at a concrete state. -/
theorem reset_board_idempotent_witness :
    reset_board (reset_board sample_state) = reset_board sample_state :=
  (reset_board_idempotent sample_state sample_state rfl).1

/-- Witness for C10: the hint at the concrete state changes cell `(0,0)` to
the solution's value there. -/
theorem give_hint_frame_witness :
    cell (give_hint sample_state 0).user_grid 0 0 = cell sample_state.solution 0 0 := by
  have h := (give_hint_frame sample_state 0).2.2 0 0
  exact h (by decide)

/-- C4: below the hint budget, `give_hint` reveals a still-untouched blank
when one exists, falls back to an incorrectly filled editable cell only when
no untouched blank remains, and does nothing when both candidate sets are
empty; in each filling case the chosen cell belongs to the stated set, gets
the solution's value, the hint counter is incremented, and any cell of the
set can be the one chosen. -/
theorem give_hint_policy (st : GameState) (k : Nat) (hlim : st.hint_used < 3) :
    ((BlankSet st).Nonempty →
      ∃ rc ∈ BlankSet st, give_hint st k = hint_fill st rc) ∧
    (BlankSet st = ∅ → (WrongSet st).Nonempty →
      ∃ rc ∈ WrongSet st, give_hint st k = hint_fill st rc) ∧
    (BlankSet st = ∅ → WrongSet st = ∅ → give_hint st k = st) ∧
    (∀ rc ∈ BlankSet st, ∃ q, give_hint st q = hint_fill st rc) := by
  have reach : ∀ rc ∈ BlankSet st, ∃ q, give_hint st q = hint_fill st rc := by
    intro rc hrc
    rw [mem_BlankSet] at hrc
    have hb : hint_blanks st ≠ [] := List.ne_nil_of_mem hrc
    obtain ⟨n, hn, hget⟩ := List.getElem_of_mem hrc
    refine ⟨n, ?_⟩
    rcases give_hint_cases st n with
      ⟨h3, -⟩ | ⟨-, -, h, -⟩ | ⟨-, hb', -⟩ | ⟨-, hb', -⟩
    · omega
    · rw [h, Nat.mod_eq_of_lt hn]
      congr 1
      rw [List.getD_eq_getElem?_getD, List.getElem?_eq_getElem hn, hget]
      rfl
    · exact absurd hb' hb
    · exact absurd hb' hb
  rcases give_hint_cases st k with
    ⟨h3, -⟩ | ⟨-, hb, h, hmem⟩ | ⟨-, hb, hw, h, hmem⟩ | ⟨-, hb, hw, h⟩
  · omega
  · refine ⟨fun _ => ⟨_, (mem_BlankSet st _).mpr hmem, h⟩, ?_, ?_, reach⟩
    · intro hbe _
      rw [BlankSet_empty_iff] at hbe
      exact absurd hbe hb
    · intro hbe _
      rw [BlankSet_empty_iff] at hbe
      exact absurd hbe hb
  · refine ⟨?_, fun _ _ => ⟨_, (mem_WrongSet st _).mpr hmem, h⟩, ?_, reach⟩
    · intro hne
      rw [← BlankSet_empty_iff] at hb
      exact absurd hb hne.ne_empty
    · intro _ hwe
      rw [WrongSet_empty_iff] at hwe
      exact absurd hwe hw
  · refine ⟨?_, ?_, fun _ _ => h, reach⟩
    · intro hne
      rw [← BlankSet_empty_iff] at hb
      exact absurd hb hne.ne_empty
    · intro _ hne
      rw [← WrongSet_empty_iff] at hw
      exact absurd hw hne.ne_empty

/-- C5: `give_hint` never decreases the number of filled cells of the user
grid; it increments the hint counter by exactly one unless the budget is
exhausted or no candidate cell remains, and in those two cases it leaves the
whole state unchanged (in particular any call with `hint_used = 3` is a
no-op). -/
theorem give_hint_monotone (st : GameState) (k : Nat)
    (hsol : ∀ r, r < 9 → ∀ c, c < 9 → cell st.solution r c ≠ 0) :
    nonzero_count st.user_grid ≤ nonzero_count (give_hint st k).user_grid ∧
    (st.hint_used < 3 → ((BlankSet st).Nonempty ∨ (WrongSet st).Nonempty) →
      (give_hint st k).hint_used = st.hint_used + 1) ∧
    (3 ≤ st.hint_used → give_hint st k = st) ∧
    (BlankSet st = ∅ → WrongSet st = ∅ → give_hint st k = st) := by
  rcases give_hint_cases st k with
    ⟨h3, h⟩ | ⟨hlt, hb, h, hmem⟩ | ⟨hlt, hb, hw, h, hmem⟩ | ⟨hlt, hb, hw, h⟩
  · exact ⟨by rw [h], fun hlt _ => absurd h3 (by omega), fun _ => h, fun _ _ => h⟩
  · rw [mem_hint_blanks] at hmem
    refine ⟨?_, fun _ _ => by rw [h]; rfl, fun h3 => absurd h3 (by omega), ?_⟩
    · rw [h]
      apply nonzero_count_le_of_pointwise
      intro r c hr hc hne0
      by_cases hrc : r = ((hint_blanks st).getD (k % (hint_blanks st).length) (0, 0)).1 ∧
          c = ((hint_blanks st).getD (k % (hint_blanks st).length) (0, 0)).2
      · obtain ⟨rfl, rfl⟩ := hrc
        exact absurd hmem.2.2.2 hne0
      · rw [(fill_frame st _).1 r c hrc]
        exact hne0
    · intro hbe _
      rw [BlankSet_empty_iff] at hbe
      exact absurd hbe hb
  · rw [mem_hint_wrongs] at hmem
    refine ⟨?_, fun _ _ => by rw [h]; rfl, fun h3 => absurd h3 (by omega), ?_⟩
    · rw [h]
      apply nonzero_count_le_of_pointwise
      intro r c hr hc hne0
      by_cases hrc : r = ((hint_wrongs st).getD (k % (hint_wrongs st).length) (0, 0)).1 ∧
          c = ((hint_wrongs st).getD (k % (hint_wrongs st).length) (0, 0)).2
      · obtain ⟨rfl, rfl⟩ := hrc
        rcases cell_set_cell_self_or st.user_grid _ _
          (cell st.solution ((hint_wrongs st).getD (k % (hint_wrongs st).length) (0, 0)).1
            ((hint_wrongs st).getD (k % (hint_wrongs st).length) (0, 0)).2) with h1 | h1
        · show cell (hint_fill st _).user_grid _ _ ≠ 0
          rw [show (hint_fill st ((hint_wrongs st).getD (k % (hint_wrongs st).length) (0, 0))).user_grid =
            set_cell st.user_grid _ _ _ from rfl, h1]
          exact hsol _ hmem.1 _ hmem.2.1
        · show cell (hint_fill st _).user_grid _ _ ≠ 0
          rw [show (hint_fill st ((hint_wrongs st).getD (k % (hint_wrongs st).length) (0, 0))).user_grid =
            set_cell st.user_grid _ _ _ from rfl, h1]
          exact hne0
      · rw [(fill_frame st _).1 r c hrc]
        exact hne0
    · intro _ hwe
      rw [WrongSet_empty_iff] at hwe
      exact absurd hwe hw
  · refine ⟨by rw [h], ?_, fun h3 => absurd h3 (by omega), fun _ _ => h⟩
    intro _ hne
    rcases hne with hne | hne
    · rw [← BlankSet_empty_iff] at hb
      exact absurd hb hne.ne_empty
    · rw [← WrongSet_empty_iff] at hw
      exact absurd hw hne.ne_empty

/-- Witness for C4 at a concrete state with one untouched blank. -/
theorem give_hint_policy_witness :
    ∃ rc ∈ BlankSet sample_state, give_hint sample_state 0 = hint_fill sample_state rc :=
  (give_hint_policy sample_state 0 (by decide)).1 (by decide)

/-- Witness for C5 at a concrete state. -/
theorem give_hint_monotone_witness :
    nonzero_count sample_state.user_grid ≤
      nonzero_count (give_hint sample_state 0).user_grid :=
  (give_hint_monotone sample_state 0 (by decide)).1

/-! ### The session-state invariant (C6) -/

theorem cell_foldl_zero_or (B : List (Nat × Nat)) (g : Grid) (r c : Nat) :
    cell (B.foldl (fun g rc => set_cell g rc.1 rc.2 0) g) r c = 0 ∨
    cell (B.foldl (fun g rc => set_cell g rc.1 rc.2 0) g) r c = cell g r c := by
  induction B generalizing g with
  | nil => exact Or.inr rfl
  | cons rc B ih =>
    rcases ih (set_cell g rc.1 rc.2 0) with h | h
    · exact Or.inl h
    · by_cases hrc : r = rc.1 ∧ c = rc.2
      · obtain ⟨rfl, rfl⟩ := hrc
        rcases cell_set_cell_self_or g rc.1 rc.2 0 with h1 | h1
        · exact Or.inl (h.trans h1)
        · exact Or.inr (h.trans h1)
      · exact Or.inr (h.trans (cell_set_cell_ne g rc.1 rc.2 0 r c hrc))

theorem make_puzzle_cell_zero_or (sol : Grid) (diff : String) (cells : List (Nat × Nat))
    (r c : Nat) (hr : r < 9) (hc : c < 9) :
    cell (make_puzzle sol diff cells) r c = 0 ∨
    cell (make_puzzle sol diff cells) r c = cell sol r c := by
  show cell ((cells.take (81 - lookup_keep diff)).foldl
      (fun g rc => set_cell g rc.1 rc.2 0) (grid_copy sol)) r c = 0 ∨ _
  rcases cell_foldl_zero_or (cells.take (81 - lookup_keep diff)) (grid_copy sol) r c with
    h | h
  · exact Or.inl h
  · exact Or.inr (h.trans (cell_grid_copy sol r c hr hc))

/-- C6: the invariant — non-zero puzzle cells agree with the solution, and
the user grid agrees with the puzzle on given cells — is established by
`new_game` for every difficulty and every outcome of the random shuffles,
and preserved by `give_hint`, by `reset_board`, and by the board loop's
editable-cell writes. -/
theorem invariant_preserved :
    (∀ diff σr τr σc τc nums cells, Invariant (new_game diff σr τr σc τc nums cells)) ∧
    (∀ st k, Invariant st → Invariant (give_hint st k)) ∧
    (∀ st, Invariant st → Invariant (reset_board st)) ∧
    (∀ st r c txt, Invariant st → Invariant (user_edit st r c txt)) := by
  refine ⟨?_, ?_, ?_, ?_⟩
  · intro diff σr τr σc τc nums cells
    have hpz : (new_game diff σr τr σc τc nums cells).puzzle =
        make_puzzle (shuffled_solution σr τr σc τc nums) diff cells := rfl
    have hsl : (new_game diff σr τr σc τc nums cells).solution =
        shuffled_solution σr τr σc τc nums := rfl
    have hug : (new_game diff σr τr σc τc nums cells).user_grid =
        grid_copy (make_puzzle (shuffled_solution σr τr σc τc nums) diff cells) := rfl
    constructor
    · intro r hr c hc hne
      rw [hpz, hsl] at *
      rcases make_puzzle_cell_zero_or (shuffled_solution σr τr σc τc nums) diff cells
        r c hr hc with h | h
      · exact absurd h hne
      · exact h
    · intro r hr c hc _
      rw [hpz, hug, cell_grid_copy _ r c hr hc]
  · intro st k hinv
    rcases give_hint_cases st k with
      ⟨-, h⟩ | ⟨-, -, h, hmem⟩ | ⟨-, -, -, h, hmem⟩ | ⟨-, -, -, h⟩
    · rwa [h]
    · rw [h, mem_hint_blanks] at *
      refine ⟨hinv.1, ?_⟩
      intro r hr c hc hne
      have hrc : ¬(r = ((hint_blanks st).getD (k % (hint_blanks st).length) (0, 0)).1 ∧
          c = ((hint_blanks st).getD (k % (hint_blanks st).length) (0, 0)).2) := by
        rintro ⟨rfl, rfl⟩
        exact hne hmem.2.2.1
      show cell (hint_fill st _).user_grid r c = _
      rw [(fill_frame st _).1 r c hrc]
      exact hinv.2 r hr c hc hne
    · rw [h, mem_hint_wrongs] at *
      refine ⟨hinv.1, ?_⟩
      intro r hr c hc hne
      have hrc : ¬(r = ((hint_wrongs st).getD (k % (hint_wrongs st).length) (0, 0)).1 ∧
          c = ((hint_wrongs st).getD (k % (hint_wrongs st).length) (0, 0)).2) := by
        rintro ⟨rfl, rfl⟩
        exact hne hmem.2.2.1
      show cell (hint_fill st _).user_grid r c = _
      rw [(fill_frame st _).1 r c hrc]
      exact hinv.2 r hr c hc hne
    · rwa [h]
  · intro st hinv
    refine ⟨hinv.1, ?_⟩
    intro r hr c hc hne
    show cell (grid_copy st.puzzle) r c = cell st.puzzle r c
    exact cell_grid_copy st.puzzle r c hr hc
  · intro st r c txt hinv
    unfold user_edit
    by_cases hgiven : cell st.puzzle r c ≠ 0
    · rwa [if_pos hgiven]
    · rw [if_neg hgiven]
      cases hsv : sanitize txt with
      | none => exact hinv
      | some v =>
        refine ⟨hinv.1, ?_⟩
        intro r' hr' c' hc' hne
        have hrc : ¬(r' = r ∧ c' = c) := by
          rintro ⟨rfl, rfl⟩
          exact hgiven hne
        show cell (set_cell st.user_grid r c v) r' c' = _
        rw [cell_set_cell_ne st.user_grid r c v r' c' hrc]
        exact hinv.2 r' hr' c' hc' hne

/-- Witness for C6: the invariant is preserved by a hint at a concrete
state satisfying it. -/
theorem invariant_preserved_witness : Invariant (give_hint sample_state 0) :=
  invariant_preserved.2.1 sample_state 0 (by unfold Invariant; decide)

/-! ### Input sanitization (C7) -/

theorem py_decimal_val_le (ch : Char) (d : Nat) (h : py_decimal_val ch = some d) :
    d ≤ 9 := by
  unfold py_decimal_val at h
  cases hf : nd_starts.find? fun s => s ≤ ch.toNat && ch.toNat ≤ s + 9 with
  | none =>
    rw [hf] at h
    simp at h
  | some s =>
    rw [hf] at h
    simp only [Option.map_some'] at h
    have hp := List.find?_some hf
    simp only [Bool.and_eq_true, decide_eq_true_eq] at hp
    have hd := Option.some.inj h
    omega

theorem py_int_single_some (ch : Char) (d : Nat) (h : py_decimal_val ch = some d) :
    py_int [ch] = some d := by
  unfold py_int
  simp [h]

theorem py_int_single_none (ch : Char) (h : py_decimal_val ch = none) :
    py_int [ch] = none := by
  unfold py_int
  simp [h]

theorem sanitize_head (ch : Char) (l txt : List Char) (hs : py_strip txt = ch :: l) :
    sanitize txt =
      if py_isdigit ch = true ∧ ch ≠ '0' then py_int [ch] else some 0 := by
  unfold sanitize
  rw [hs]
  by_cases hd : py_isdigit ch = true
  · by_cases h0 : ch = '0'
    · subst h0
      simp [str_isdigit, hd]
    · simp [str_isdigit, hd, h0]
  · simp [str_isdigit, hd]

/-- C7 (counterexample): the input `"12"` is not a single digit 1–9, yet the
sanitized cell value is `1`, not `0`; and on `'²'` — a digit-type character
with no decimal value — `int` raises `ValueError`, so an error is raised.
Both halves of the stated policy fail on the code. -/
theorem sanitize_counterexample :
    (¬ (∀ txt : List Char,
        (∀ d, d < 10 → 1 ≤ d → txt ≠ [Char.ofNat (48 + d)]) →
          sanitize txt = some 0)) ∧
    sanitize [Char.ofNat 178] = none := by
  constructor
  · intro h
    exact absurd (h ['1', '2'] (by decide)) (by decide)
  · decide

/-- C7 (amended): the input is stripped of Unicode whitespace and truncated
to its first character `c`.  If there is no such character, or `c` is not a
digit character, or `c` is `'0'`, the cell value is `0` and no error occurs.
If `c` is a digit character other than `'0'`, the code evaluates `int`: when
`c` is a decimal digit the value stored is its decimal value — so `"12"`
yields `1` and the Arabic-Indic three yields `3` — and when `c` is a
digit-type character with no decimal value, such as `'²'`, `int` raises
`ValueError` and nothing is stored.  Every value stored is at most 9. -/
theorem sanitize_amended (txt : List Char) :
    (∀ v, sanitize txt = some v → v ≤ 9) ∧
    (py_strip txt = [] → sanitize txt = some 0) ∧
    (∀ ch l, py_strip txt = ch :: l →
      (py_isdigit ch = false → sanitize txt = some 0) ∧
      (ch = '0' → sanitize txt = some 0) ∧
      (py_isdigit ch = true → ch ≠ '0' →
        (∀ d, py_decimal_val ch = some d → sanitize txt = some d) ∧
        (py_decimal_val ch = none → sanitize txt = none))) := by
  cases hs : py_strip txt with
  | nil =>
    have h0 : sanitize txt = some 0 := by
      unfold sanitize
      rw [hs]
      simp [str_isdigit]
    refine ⟨?_, fun _ => h0, ?_⟩
    · intro v hv
      rw [h0] at hv
      injection hv with h
      omega
    · intro ch l h
      exact absurd h (by simp)
  | cons ch l =>
    have hh := sanitize_head ch l txt hs
    have hle : ∀ v, sanitize txt = some v → v ≤ 9 := by
      intro v hv
      rw [hh] at hv
      by_cases hcond : py_isdigit ch = true ∧ ch ≠ '0'
      · rw [if_pos hcond] at hv
        cases hdv : py_decimal_val ch with
        | none =>
          rw [py_int_single_none ch hdv] at hv
          exact absurd hv (by simp)
        | some d =>
          rw [py_int_single_some ch d hdv] at hv
          injection hv with h
          have := py_decimal_val_le ch d hdv
          omega
      · rw [if_neg hcond] at hv
        injection hv with h
        omega
    refine ⟨hle, ?_, ?_⟩
    · intro h
      exact absurd h (by simp)
    · intro ch' l' h
      injection h with h1 h2
      subst h1
      subst h2
      refine ⟨?_, ?_, ?_⟩
      · intro hfalse
        rw [hh, if_neg (by simp [hfalse])]
      · intro h0
        rw [hh, if_neg (by simp [h0])]
      · intro hd h0
        refine ⟨?_, ?_⟩
        · intro d hdv
          rw [hh, if_pos ⟨hd, h0⟩, py_int_single_some ch d hdv]
        · intro hdv
          rw [hh, if_pos ⟨hd, h0⟩, py_int_single_none ch hdv]

/-- Witness for C7 (amended) at the concrete input `"12"`: the stored value
is `1`. -/
theorem sanitize_amended_witness : sanitize ['1', '2'] = some 1 :=
  (((sanitize_amended ['1', '2']).2.2 '1' ['2'] (by decide)).2.2 (by decide)
    (by decide)).1 1 (by decide)

/-! ### Difficulty lookup and puzzle carving (C2, C8) -/

theorem lookup_keep_of_unknown (diff : String) (h1 : diff ≠ "쉬움") (h2 : diff ≠ "중간")
    (h3 : diff ≠ "어려움") : lookup_keep diff = 35 := by
  have e1 : (diff == "쉬움") = false := beq_eq_false_iff_ne.mpr h1
  have e2 : (diff == "중간") = false := beq_eq_false_iff_ne.mpr h2
  have e3 : (diff == "어려움") = false := beq_eq_false_iff_ne.mpr h3
  unfold lookup_keep keep_map
  simp [List.lookup, e1, e2, e3]

theorem lookup_keep_cases (diff : String) :
    lookup_keep diff = 45 ∨ lookup_keep diff = 35 ∨ lookup_keep diff = 28 := by
  by_cases h1 : diff = "쉬움"
  · subst h1
    left
    rfl
  by_cases h2 : diff = "중간"
  · subst h2
    right; left
    rfl
  by_cases h3 : diff = "어려움"
  · subst h3
    right; right
    rfl
  · right; left
    exact lookup_keep_of_unknown diff h1 h2 h3

theorem lookup_keep_le (diff : String) : lookup_keep diff ≤ 81 := by
  rcases lookup_keep_cases diff with h | h | h <;> omega

theorem cell_foldl_blank (B : List (Nat × Nat)) (g : Grid) (hwf : WF g)
    (hB : ∀ rc ∈ B, rc.1 < 9 ∧ rc.2 < 9) (r c : Nat) (hr : r < 9) (hc : c < 9) :
    cell (B.foldl (fun g rc => set_cell g rc.1 rc.2 0) g) r c =
      if (r, c) ∈ B then 0 else cell g r c := by
  induction B generalizing g with
  | nil => simp
  | cons rc B ih =>
    obtain ⟨a, b⟩ := rc
    have hwf' := WF_set_cell g a b 0 hwf
    rw [List.foldl_cons,
      ih (set_cell g a b 0) hwf' fun x hx => hB x (List.mem_cons_of_mem _ hx)]
    by_cases hmem : (r, c) ∈ B
    · rw [if_pos hmem, if_pos (List.mem_cons_of_mem _ hmem)]
    · rw [if_neg hmem]
      by_cases heq : (r, c) = (a, b)
      · injection heq with h1 h2
        subst h1
        subst h2
        rw [if_pos (List.mem_cons_self (r, c) B)]
        exact cell_set_cell_self g r c 0 (by rw [hwf.1]; exact hr) (by
          rw [WF_cell_len g hwf r hr]
          exact hc)
      · have hne : ¬(r = a ∧ c = b) := by
          intro hand
          exact heq (Prod.ext hand.1 hand.2)
        have hnotmem : (r, c) ∉ (a, b) :: B := by
          simp only [List.mem_cons]
          push_neg
          exact ⟨heq, hmem⟩
        rw [cell_set_cell_ne g a b 0 r c hne, if_neg hnotmem]

theorem make_puzzle_cell (sol : Grid) (diff : String) (cells : List (Nat × Nat))
    (hcells : ∀ rc ∈ cells, rc.1 < 9 ∧ rc.2 < 9) (r c : Nat) (hr : r < 9) (hc : c < 9) :
    cell (make_puzzle sol diff cells) r c =
      if (r, c) ∈ cells.take (81 - lookup_keep diff) then 0 else cell sol r c := by
  show cell ((cells.take (81 - lookup_keep diff)).foldl
      (fun g rc => set_cell g rc.1 rc.2 0) (grid_copy sol)) r c = _
  rw [cell_foldl_blank _ _ (WF_grid_copy sol)
    (fun rc h => hcells rc (List.mem_of_mem_take h)) r c hr hc]
  by_cases hmem : (r, c) ∈ cells.take (81 - lookup_keep diff)
  · rw [if_pos hmem, if_pos hmem]
  · rw [if_neg hmem, if_neg hmem, cell_grid_copy sol r c hr hc]

theorem all_cells_nodup : all_cells.Nodup := by decide

theorem all_cells_length : all_cells.length = 81 := by decide

theorem nonzero_add_zero_count (g : Grid) : zero_count g + nonzero_count g = 81 := by
  unfold nonzero_count zero_count
  rw [show ((Finset.range 9 ×ˢ Finset.range 9).filter fun rc => cell g rc.1 rc.2 ≠ 0) =
      ((Finset.range 9 ×ˢ Finset.range 9).filter fun rc => ¬ cell g rc.1 rc.2 = 0) from rfl,
    Finset.filter_card_add_filter_neg_card_eq_card,
    Finset.card_product]
  simp

theorem zero_count_make_puzzle (sol : Grid) (diff : String) (cells : List (Nat × Nat))
    (hsol : ∀ r, r < 9 → ∀ c, c < 9 → cell sol r c ≠ 0)
    (hcells : cells.Perm all_cells) :
    zero_count (make_puzzle sol diff cells) = 81 - lookup_keep diff := by
  have hmem9 : ∀ rc ∈ cells, rc.1 < 9 ∧ rc.2 < 9 := fun rc h =>
    (mem_all_cells rc).mp (hcells.mem_iff.mp h)
  have hnodup : cells.Nodup := hcells.nodup_iff.mpr all_cells_nodup
  have hBnodup : (cells.take (81 - lookup_keep diff)).Nodup :=
    hnodup.sublist (List.take_sublist _ _)
  have hset : ((Finset.range 9 ×ˢ Finset.range 9).filter
      fun rc => cell (make_puzzle sol diff cells) rc.1 rc.2 = 0) =
      (cells.take (81 - lookup_keep diff)).toFinset := by
    ext rc
    obtain ⟨a, b⟩ := rc
    rw [Finset.mem_filter, Finset.mem_product, Finset.mem_range, Finset.mem_range,
      List.mem_toFinset]
    constructor
    · rintro ⟨⟨hr, hc⟩, hz⟩
      rw [make_puzzle_cell sol diff cells hmem9 a b hr hc] at hz
      by_cases hmem : (a, b) ∈ cells.take (81 - lookup_keep diff)
      · exact hmem
      · rw [if_neg hmem] at hz
        exact absurd hz (hsol a hr b hc)
    · intro hmem
      have h9 := hmem9 (a, b) (List.mem_of_mem_take hmem)
      refine ⟨⟨h9.1, h9.2⟩, ?_⟩
      rw [make_puzzle_cell sol diff cells hmem9 a b h9.1 h9.2, if_pos hmem]
  show ((Finset.range 9 ×ˢ Finset.range 9).filter
      fun rc => cell (make_puzzle sol diff cells) rc.1 rc.2 = 0).card = _
  rw [hset, List.toFinset_card_of_nodup hBnodup, List.length_take,
    hcells.length_eq, all_cells_length]
  exact Nat.min_eq_left (Nat.sub_le 81 _)

theorem nonzero_count_make_puzzle (sol : Grid) (diff : String) (cells : List (Nat × Nat))
    (hsol : ∀ r, r < 9 → ∀ c, c < 9 → cell sol r c ≠ 0)
    (hcells : cells.Perm all_cells) :
    nonzero_count (make_puzzle sol diff cells) = lookup_keep diff := by
  have h1 := nonzero_add_zero_count (make_puzzle sol diff cells)
  have h2 := zero_count_make_puzzle sol diff cells hsol hcells
  have h3 := lookup_keep_le diff
  omega

/-- C2: for every zero-free solution grid and every difficulty, the carved
puzzle agrees with the solution on all its non-zero cells and keeps exactly
the configured number of givens (Easy 45, Medium 35, Hard 28); a Hard puzzle
has exactly 28 non-zero and 53 zero cells. -/
theorem make_puzzle_spec (sol : Grid) (diff : String) (cells : List (Nat × Nat))
    (hsol : ∀ r, r < 9 → ∀ c, c < 9 → cell sol r c ≠ 0)
    (hcells : cells.Perm all_cells) :
    (∀ r, r < 9 → ∀ c, c < 9 → cell (make_puzzle sol diff cells) r c ≠ 0 →
      cell (make_puzzle sol diff cells) r c = cell sol r c) ∧
    nonzero_count (make_puzzle sol diff cells) = lookup_keep diff ∧
    lookup_keep "쉬움" = 45 ∧ lookup_keep "중간" = 35 ∧ lookup_keep "어려움" = 28 ∧
    nonzero_count (make_puzzle sol "어려움" cells) = 28 ∧
    zero_count (make_puzzle sol "어려움" cells) = 53 := by
  have hhard : nonzero_count (make_puzzle sol "어려움" cells) = 28 :=
    nonzero_count_make_puzzle sol "어려움" cells hsol hcells
  have hhardz : zero_count (make_puzzle sol "어려움" cells) = 53 := by
    have hz := zero_count_make_puzzle sol "어려움" cells hsol hcells
    rw [hz]
    rfl
  refine ⟨?_, nonzero_count_make_puzzle sol diff cells hsol hcells, rfl, rfl, rfl,
    hhard, hhardz⟩
  intro r hr c hc hne
  rcases make_puzzle_cell_zero_or sol diff cells r c hr hc with h | h
  · exact absurd h hne
  · exact h

/-- Witness for C2: a Hard puzzle carved from the base solution by the
identity shuffle keeps exactly 28 cells. -/
theorem make_puzzle_spec_witness :
    nonzero_count (make_puzzle base_solution "어려움" all_cells) = 28 ∧
    zero_count (make_puzzle base_solution "어려움" all_cells) = 53 := by
  have h := make_puzzle_spec base_solution "어려움" all_cells (by decide)
    (List.Perm.refl all_cells)
  exact ⟨h.2.2.2.2.2.1, h.2.2.2.2.2.2⟩

/-- C8: an unrecognized difficulty key does not fail: the lookup silently
falls back to the Medium value 35, the carved puzzle coincides with the one
carved at Medium, and it keeps exactly 35 givens. -/
theorem make_puzzle_unknown_difficulty (sol : Grid) (cells : List (Nat × Nat))
    (diff : String) (h1 : diff ≠ "쉬움") (h2 : diff ≠ "중간") (h3 : diff ≠ "어려움") :
    lookup_keep diff = 35 ∧
    make_puzzle sol diff cells = make_puzzle sol "중간" cells ∧
    ((∀ r, r < 9 → ∀ c, c < 9 → cell sol r c ≠ 0) → cells.Perm all_cells →
      nonzero_count (make_puzzle sol diff cells) = 35) := by
  have hk := lookup_keep_of_unknown diff h1 h2 h3
  refine ⟨hk, ?_, ?_⟩
  · show (cells.take (81 - lookup_keep diff)).foldl _ (grid_copy sol) =
      (cells.take (81 - lookup_keep "중간")).foldl _ (grid_copy sol)
    rw [hk]
    rfl
  · intro hsol hcells
    rw [nonzero_count_make_puzzle sol diff cells hsol hcells, hk]

/-- Witness for C8 at the difficulty string `"easy"`, not a recognized key. -/
theorem make_puzzle_unknown_difficulty_witness :
    lookup_keep "easy" = 35 ∧
    make_puzzle base_solution "easy" all_cells =
      make_puzzle base_solution "중간" all_cells := by
  have h := make_puzzle_unknown_difficulty base_solution all_cells "easy"
    (by decide) (by decide) (by decide)
  exact ⟨h.1, h.2.1⟩

/-! ### Completion checking (C3) -/

theorem target_eq_Icc : target = Finset.Icc 1 9 := by decide

theorem check_complete_eq_true_iff (g : Grid) :
    check_complete g = true ↔
      ((∀ r, r < 9 → ¬(0 ∈ g.getD r []) ∧ (g.getD r []).toFinset = target) ∧
       (∀ c, c < 9 → (col_list g c).toFinset = target) ∧
       (∀ br, br ∈ [0, 3, 6] → ∀ bc, bc ∈ [0, 3, 6] →
         (box_list g br bc).toFinset = target)) := by
  have hb : List.range' 0 3 3 = [0, 3, 6] := rfl
  unfold check_complete
  rw [hb]
  simp only [List.all_eq_true, List.mem_range, Bool.and_eq_true, Bool.not_eq_true',
    decide_eq_true_eq, decide_eq_false_iff_not, List.mem_cons, List.mem_singleton,
    List.not_mem_nil, or_false]
  tauto

/-- C3: on a well-formed 9×9 grid, `check_complete` returns `false` whenever
some cell is zero, and returns `true` iff every row, every column and every
3×3 box has value set exactly `{1,…,9}`. -/
theorem check_complete_spec (g : Grid) (hwf : WF g) :
    ((∃ r, r < 9 ∧ ∃ c, c < 9 ∧ cell g r c = 0) → check_complete g = false) ∧
    (check_complete g = true ↔
      ((∀ r, r < 9 → (g.getD r []).toFinset = Finset.Icc 1 9) ∧
       (∀ c, c < 9 → (col_list g c).toFinset = Finset.Icc 1 9) ∧
       (∀ u, u < 3 → ∀ v, v < 3 →
         (box_list g (3 * u) (3 * v)).toFinset = Finset.Icc 1 9))) := by
  have hiff : check_complete g = true ↔
      ((∀ r, r < 9 → (g.getD r []).toFinset = Finset.Icc 1 9) ∧
       (∀ c, c < 9 → (col_list g c).toFinset = Finset.Icc 1 9) ∧
       (∀ u, u < 3 → ∀ v, v < 3 →
         (box_list g (3 * u) (3 * v)).toFinset = Finset.Icc 1 9)) := by
    rw [check_complete_eq_true_iff, ← target_eq_Icc]
    constructor
    · rintro ⟨hrow, hcol, hbox⟩
      refine ⟨fun r hr => (hrow r hr).2, hcol, ?_⟩
      intro u hu v hv
      apply hbox
      · interval_cases u <;> simp
      · interval_cases v <;> simp
    · rintro ⟨hrow, hcol, hbox⟩
      refine ⟨?_, hcol, ?_⟩
      · intro r hr
        refine ⟨?_, hrow r hr⟩
        intro h0
        have : (0 : Nat) ∈ (g.getD r []).toFinset := List.mem_toFinset.mpr h0
        rw [hrow r hr, target_eq_Icc] at this
        simp at this
      · intro br hbr bc hbc
        simp only [List.mem_cons, List.mem_singleton, List.not_mem_nil, or_false]
          at hbr hbc
        have hu : ∃ u, u < 3 ∧ br = 3 * u := by
          rcases hbr with h | h | h
          · exact ⟨0, by omega⟩
          · exact ⟨1, by omega⟩
          · exact ⟨2, by omega⟩
        have hv : ∃ v, v < 3 ∧ bc = 3 * v := by
          rcases hbc with h | h | h
          · exact ⟨0, by omega⟩
          · exact ⟨1, by omega⟩
          · exact ⟨2, by omega⟩
        obtain ⟨u, hu3, rfl⟩ := hu
        obtain ⟨v, hv3, rfl⟩ := hv
        exact hbox u hu3 v hv3
  refine ⟨?_, hiff⟩
  rintro ⟨r, hr, c, hc, hz⟩
  rw [← Bool.not_eq_true]
  intro htrue
  have hrow := (hiff.mp htrue).1 r hr
  have hc' : c < (g.getD r []).length := by
    rw [WF_cell_len g hwf r hr]
    exact hc
  have h0 : (0 : Nat) ∈ g.getD r [] := by
    rw [← hz]
    exact getD_mem (g.getD r []) c 0 hc'
  have : (0 : Nat) ∈ (g.getD r []).toFinset := List.mem_toFinset.mpr h0
  rw [hrow] at this
  simp at this

/-- Witness for C3: the deterministic base pattern passes the completion
check. -/
theorem check_complete_spec_witness : check_complete base_solution = true :=
  (check_complete_spec base_solution ⟨by decide, by decide⟩).2.mpr
    ⟨by decide, by decide, by decide⟩

/-! ### Validity of every generated solution (C1) -/

/-- The row (or column) index placed at output position `a` by
`shuffle_in_groups`: position `a` sits in output group `a / 3` at offset
`a % 3`. -/
def band_idx (σ : Nat → Nat) (τ : Nat → Nat → Nat) (a : Nat) : Nat :=
  3 * σ (a / 3) + τ (a / 3) (a % 3)

theorem shuffle_in_groups_eq_map (σ : Nat → Nat) (τ : Nat → Nat → Nat) :
    shuffle_in_groups σ τ = (List.range 9).map (band_idx σ τ) := rfl

theorem cell_base (i j : Nat) (hi : i < 9) (hj : j < 9) :
    cell base_solution i j = (i * 3 + i / 3 + j) % 9 + 1 := by
  show ((base_solution.getD i []).getD j 0) = _
  unfold base_solution
  rw [getD_range_map _ _ _ _ hi, getD_range_map _ _ _ _ hj]

theorem band_idx_lt (σ : Nat → Nat) (τ : Nat → Nat → Nat) (hσ : IsPerm3 σ)
    (hτ : ∀ b, b < 3 → IsPerm3 (τ b)) (a : Nat) (ha : a < 9) : band_idx σ τ a < 9 := by
  have h1 : a / 3 < 3 := by omega
  have h2 : σ (a / 3) < 3 := hσ.1 _ h1
  have h3 : τ (a / 3) (a % 3) < 3 := (hτ _ h1).1 _ (by omega)
  unfold band_idx
  omega

theorem band_idx_inj (σ : Nat → Nat) (τ : Nat → Nat → Nat) (hσ : IsPerm3 σ)
    (hτ : ∀ b, b < 3 → IsPerm3 (τ b)) (a a' : Nat) (ha : a < 9) (ha' : a' < 9)
    (h : band_idx σ τ a = band_idx σ τ a') : a = a' := by
  unfold band_idx at h
  have h1 : a / 3 < 3 := by omega
  have h1' : a' / 3 < 3 := by omega
  have hb2 : τ (a / 3) (a % 3) < 3 := (hτ _ h1).1 _ (by omega)
  have hb2' : τ (a' / 3) (a' % 3) < 3 := (hτ _ h1').1 _ (by omega)
  have hσσ : σ (a / 3) = σ (a' / 3) := by omega
  have hdiv : a / 3 = a' / 3 := hσ.2 _ h1 _ h1' hσσ
  rw [hdiv] at h hb2
  have hττ : τ (a' / 3) (a % 3) = τ (a' / 3) (a' % 3) := by omega
  have hmod : a % 3 = a' % 3 := (hτ _ h1').2 _ (by omega) _ (by omega) hττ
  omega

theorem nums_getD_inj (nums : List Nat) (h : nums.Nodup) (i j : Nat)
    (hi : i < nums.length) (hj : j < nums.length)
    (heq : nums.getD i 0 = nums.getD j 0) : i = j := by
  rw [List.getD_eq_getElem?_getD, List.getElem?_eq_getElem hi,
    List.getD_eq_getElem?_getD, List.getElem?_eq_getElem hj] at heq
  simp only [Option.getD_some] at heq
  exact (List.Nodup.getElem_inj_iff h).mp heq

/-- Any 9 reads of a shuffled `list(range(1,10))` through an injective index
map form a permutation of `1..9`. -/
theorem region_perm (nums : List Nat) (hnums : nums.Perm (List.range' 1 9))
    (f : Nat → Nat) (hlt : ∀ e, e < 9 → f e < 9)
    (hinj : ∀ e, e < 9 → ∀ e', e' < 9 → f e = f e' → e = e') :
    ((List.range 9).map fun e => nums.getD (f e) 0).Perm (List.range' 1 9) := by
  have hlen : nums.length = 9 := by rw [hnums.length_eq]; rfl
  have hnd : nums.Nodup := hnums.nodup_iff.mpr (by decide)
  have hndmap : ((List.range 9).map fun e => nums.getD (f e) 0).Nodup := by
    apply List.Nodup.map_on
    · intro x hx y hy hxy
      rw [List.mem_range] at hx hy
      exact hinj x hx y hy (nums_getD_inj nums hnd _ _
        (by rw [hlen]; exact hlt x hx) (by rw [hlen]; exact hlt y hy) hxy)
    · exact List.nodup_range 9
  refine List.perm_of_nodup_nodup_toFinset_eq hndmap (by decide) ?_
  apply Finset.eq_of_subset_of_card_le
  · intro v hv
    rw [List.mem_toFinset] at hv ⊢
    rw [List.mem_map] at hv
    obtain ⟨e, he, rfl⟩ := hv
    rw [List.mem_range] at he
    exact hnums.mem_iff.mp (getD_mem nums (f e) 0 (by rw [hlen]; exact hlt e he))
  · rw [List.toFinset_card_of_nodup hndmap, List.length_map, List.length_range]
    decide

theorem shuffled_row_eq (σr : Nat → Nat) (τr : Nat → Nat → Nat) (σc : Nat → Nat)
    (τc : Nat → Nat → Nat) (nums : List Nat) (hσr : IsPerm3 σr)
    (hτr : ∀ b, b < 3 → IsPerm3 (τr b)) (hσc : IsPerm3 σc)
    (hτc : ∀ b, b < 3 → IsPerm3 (τc b)) (a : Nat) (ha : a < 9) :
    (shuffled_solution σr τr σc τc nums).getD a [] =
      (List.range 9).map fun e =>
        nums.getD ((band_idx σr τr a * 3 + band_idx σr τr a / 3 +
          band_idx σc τc e) % 9) 0 := by
  have hri : band_idx σr τr a < 9 := band_idx_lt σr τr hσr hτr a ha
  unfold shuffled_solution
  rw [getD_map_of_lt _ _ a [] 0 (by
    rw [shuffle_in_groups_eq_map, List.length_map, List.length_range]
    exact ha)]
  rw [show (shuffle_in_groups σr τr).getD a 0 = band_idx σr τr a by
    rw [shuffle_in_groups_eq_map]
    exact getD_range_map _ 9 a 0 ha]
  rw [shuffle_in_groups_eq_map σc τc, List.map_map]
  apply List.map_congr_left
  intro e he
  rw [List.mem_range] at he
  show nums.getD (cell base_solution (band_idx σr τr a) (band_idx σc τc e) - 1) 0 = _
  rw [cell_base _ _ hri (band_idx_lt σc τc hσc hτc e he), Nat.add_sub_cancel]

theorem cell_shuffled (σr : Nat → Nat) (τr : Nat → Nat → Nat) (σc : Nat → Nat)
    (τc : Nat → Nat → Nat) (nums : List Nat) (hσr : IsPerm3 σr)
    (hτr : ∀ b, b < 3 → IsPerm3 (τr b)) (hσc : IsPerm3 σc)
    (hτc : ∀ b, b < 3 → IsPerm3 (τc b)) (a b : Nat) (ha : a < 9) (hb : b < 9) :
    cell (shuffled_solution σr τr σc τc nums) a b =
      nums.getD ((band_idx σr τr a * 3 + band_idx σr τr a / 3 +
        band_idx σc τc b) % 9) 0 := by
  show ((shuffled_solution σr τr σc τc nums).getD a []).getD b 0 = _
  rw [shuffled_row_eq σr τr σc τc nums hσr hτr hσc hτc a ha,
    getD_range_map _ 9 b 0 hb]

theorem box_list_eq_map (g : Grid) (u v : Nat) :
    box_list g (3 * u) (3 * v) =
      (List.range 9).map fun e => cell g (3 * u + e / 3) (3 * v + e % 3) := rfl

/-- C1: whatever the outcomes of the row-band, row, column-band, column and
digit shuffles, every row, every column and every 3×3 box of the generated
solution is a permutation of `1..9` — no duplicates and no zeros. -/
theorem shuffled_solution_valid (σr : Nat → Nat) (τr : Nat → Nat → Nat)
    (σc : Nat → Nat) (τc : Nat → Nat → Nat) (nums : List Nat)
    (hσr : IsPerm3 σr) (hτr : ∀ b, b < 3 → IsPerm3 (τr b))
    (hσc : IsPerm3 σc) (hτc : ∀ b, b < 3 → IsPerm3 (τc b))
    (hnums : nums.Perm (List.range' 1 9)) :
    (∀ r, r < 9 →
      ((shuffled_solution σr τr σc τc nums).getD r []).Perm (List.range' 1 9)) ∧
    (∀ c, c < 9 →
      (col_list (shuffled_solution σr τr σc τc nums) c).Perm (List.range' 1 9)) ∧
    (∀ u, u < 3 → ∀ v, v < 3 →
      (box_list (shuffled_solution σr τr σc τc nums) (3 * u) (3 * v)).Perm
        (List.range' 1 9)) := by
  have D1 : ∀ i, i < 9 → ∀ j, j < 9 → (i * 3 + i / 3) % 9 = (j * 3 + j / 3) % 9 →
      i = j := by decide
  refine ⟨?_, ?_, ?_⟩
  · intro a ha
    rw [shuffled_row_eq σr τr σc τc nums hσr hτr hσc hτc a ha]
    apply region_perm nums hnums
    · intro e he
      exact Nat.mod_lt _ (by omega)
    · intro e he e' he' heq
      apply band_idx_inj σc τc hσc hτc e e' he he'
      have hce := band_idx_lt σc τc hσc hτc e he
      have hce' := band_idx_lt σc τc hσc hτc e' he'
      omega
  · intro b hb
    have hcol : col_list (shuffled_solution σr τr σc τc nums) b =
        (List.range 9).map fun e =>
          nums.getD ((band_idx σr τr e * 3 + band_idx σr τr e / 3 +
            band_idx σc τc b) % 9) 0 := by
      unfold col_list
      apply List.map_congr_left
      intro e he
      rw [List.mem_range] at he
      exact cell_shuffled σr τr σc τc nums hσr hτr hσc hτc e b he hb
    rw [hcol]
    apply region_perm nums hnums
    · intro e he
      exact Nat.mod_lt _ (by omega)
    · intro e he e' he' heq
      apply band_idx_inj σr τr hσr hτr e e' he he'
      have hue := band_idx_lt σr τr hσr hτr e he
      have hue' := band_idx_lt σr τr hσr hτr e' he'
      have hmods : (band_idx σr τr e * 3 + band_idx σr τr e / 3) % 9 =
          (band_idx σr τr e' * 3 + band_idx σr τr e' / 3) % 9 := by omega
      exact D1 _ hue _ hue' hmods
  · intro u hu v hv
    have hbox : box_list (shuffled_solution σr τr σc τc nums) (3 * u) (3 * v) =
        (List.range 9).map fun e =>
          nums.getD ((band_idx σr τr (3 * u + e / 3) * 3 +
            band_idx σr τr (3 * u + e / 3) / 3 +
            band_idx σc τc (3 * v + e % 3)) % 9) 0 := by
      rw [box_list_eq_map]
      apply List.map_congr_left
      intro e he
      rw [List.mem_range] at he
      exact cell_shuffled σr τr σc τc nums hσr hτr hσc hτc _ _
        (by omega) (by omega)
    rw [hbox]
    apply region_perm nums hnums
    · intro e he
      exact Nat.mod_lt _ (by omega)
    · intro e he e' he' heq
      have hdiv : ∀ x, x < 9 → (3 * u + x / 3) / 3 = u := by omega
      have hmod : ∀ x, x < 9 → (3 * u + x / 3) % 3 = x / 3 := by omega
      have hdv : ∀ x, x < 9 → (3 * v + x % 3) / 3 = v := by omega
      have hmv : ∀ x, x < 9 → (3 * v + x % 3) % 3 = x % 3 := by omega
      unfold band_idx at heq
      rw [hdiv e he, hmod e he, hdiv e' he', hmod e' he', hdv e he, hmv e he,
        hdv e' he', hmv e' he'] at heq
      have hs : τr u (e / 3) < 3 := (hτr u hu).1 _ (by omega)
      have hs' : τr u (e' / 3) < 3 := (hτr u hu).1 _ (by omega)
      have ht : τc v (e % 3) < 3 := (hτc v hv).1 _ (by omega)
      have ht' : τc v (e' % 3) < 3 := (hτc v hv).1 _ (by omega)
      have hq1 : (3 * σr u + τr u (e / 3)) / 3 = σr u := by omega
      have hq2 : (3 * σr u + τr u (e' / 3)) / 3 = σr u := by omega
      rw [hq1, hq2] at heq
      have hst : τr u (e / 3) = τr u (e' / 3) ∧ τc v (e % 3) = τc v (e' % 3) := by
        omega
      have he3 : e / 3 = e' / 3 := (hτr u hu).2 _ (by omega) _ (by omega) hst.1
      have hem : e % 3 = e' % 3 := (hτc v hv).2 _ (by omega) _ (by omega) hst.2
      omega

/-- Witness for C1 with the identity shuffles and the identity digit
relabeling. -/
theorem shuffled_solution_valid_witness :
    ((shuffled_solution (fun m => m) (fun _ k => k) (fun m => m) (fun _ k => k)
      (List.range' 1 9)).getD 0 []).Perm (List.range' 1 9) :=
  (shuffled_solution_valid (fun m => m) (fun _ k => k) (fun m => m) (fun _ k => k)
    (List.range' 1 9) (by unfold IsPerm3; decide)
    (by unfold IsPerm3; decide) (by unfold IsPerm3; decide)
    (by unfold IsPerm3; decide) (List.Perm.refl _)).1 0 (by decide)

end Streamdoku
